import Mathlib

/-!
Verification of the build/release helper scripts of ZaparooProject/zaparoo-core
(`scripts/tasks/fetchreadme.py` and `scripts/tasks/makezip.py`), against the
repository's natural-language specification.

The two Python scripts are shallowly embedded here:

* Paths are lists of components (`FPath`); the filesystem is an association
  list from absolute paths to file contents, plus a list of existing
  directories (`FS`).  The network is a pure function from URL to body text;
  every performed request is logged.
* Python string primitives used by the scripts (`str.splitlines`, `str.strip`)
  are modelled over `List Char`.  `splitlines` is modelled for the line
  boundaries `"\n"`, `"\r\n"` and `"\r"`; `strip` for the ASCII whitespace
  characters.  (Python additionally recognises some rare Unicode boundaries /
  spaces; the scripts' inputs are ordinary markdown text.)
* The `__main__` blocks become functions from the parsed positional arguments,
  the network, the invocation working directory, and the initial filesystem to
  a result record carrying the outcome, the final filesystem and the list of
  URLs fetched.  `fetchreadme.py` performs `os.chdir`, so its paths carry an
  absolute/relative flag (`RPath`) and are resolved against the current
  working directory, exactly as the operating system would.
-/

/-! ### Python string primitives -/

/-- The ASCII whitespace characters recognised by Python's `str.strip()`. -/
def isPySpace (c : Char) : Bool :=
  c == ' ' || c == '\t' || c == '\n' || c == '\r' || c == '\x0b' || c == '\x0c'

/-- Python `str.strip()`: remove leading and trailing whitespace. -/
def pystrip (s : String) : String :=
  String.mk (((s.data.dropWhile isPySpace).reverse.dropWhile isPySpace).reverse)

/-- Helper for `pySplitlines`: split a non-empty character list at the line
boundaries `\r\n`, `\r`, `\n`; a boundary at the very end of the input does not
open a final empty line (Python `str.splitlines` semantics). -/
def splitlinesAux : List Char → List Char → List String
  | [], cur => [String.mk cur.reverse]
  | '\r' :: '\n' :: rest, cur =>
    if rest.isEmpty then [String.mk cur.reverse]
    else String.mk cur.reverse :: splitlinesAux rest []
  | '\r' :: rest, cur =>
    if rest.isEmpty then [String.mk cur.reverse]
    else String.mk cur.reverse :: splitlinesAux rest []
  | '\n' :: rest, cur =>
    if rest.isEmpty then [String.mk cur.reverse]
    else String.mk cur.reverse :: splitlinesAux rest []
  | c :: rest, cur => splitlinesAux rest (c :: cur)

/-- Python `str.splitlines()`: the empty string has no lines. -/
def pySplitlines (s : String) : List String :=
  if s.data.isEmpty then [] else splitlinesAux s.data []

/-- ASCII lower-casing of one character (Python `str.lower` on the ASCII
file names appearing in the platform maps). -/
def pyLowerChar (c : Char) : Char :=
  if 'A' ≤ c ∧ c ≤ 'Z' then Char.ofNat (c.toNat + 32) else c

/-- Python `str.lower()`. -/
def pyLower (s : String) : String :=
  String.mk (s.data.map pyLowerChar)

/-- Python `str.endswith(t)`. -/
def pyEndsWith (s t : String) : Bool :=
  t.data.isSuffixOf s.data

/-! ### Filesystem model -/

/-- An absolute filesystem path, as a list of components. -/
abbrev FPath := List String

/-- A zip entry: archive name (components) and file content. -/
abbrev ZEntry := FPath × String

/-- The Python exception classes raised by the scripts. -/
inductive Err where
  | valueError
  | notADirectoryError
  | fileNotFoundError
  | isADirectoryError
  | indexError
deriving DecidableEq, Repr

/-- `pre` is a path prefix of `p` (so `p` is `pre` itself or lies under the
directory `pre`). -/
def startsWithPath : FPath → FPath → Bool
  | [], _ => true
  | _ :: _, [] => false
  | a :: as, b :: bs => a == b && startsWithPath as bs

/-- Filesystem state: regular files (absolute path ↦ content) and the set of
existing directories. -/
structure FS where
  files : List (FPath × String)
  dirs : List FPath
deriving DecidableEq

/-- Content of the regular file at `p`, if any. -/
def FS.getFile (fs : FS) (p : FPath) : Option String :=
  List.lookup p fs.files

/-- Python `os.path.isfile`. -/
def FS.isfile (fs : FS) (p : FPath) : Bool :=
  (fs.getFile p).isSome

/-- Python `os.path.isdir`. -/
def FS.isdir (fs : FS) (p : FPath) : Bool :=
  fs.dirs.contains p

/-- Python `os.path.exists` (restricted to files and directories). -/
def FS.pathExists (fs : FS) (p : FPath) : Bool :=
  fs.isfile p || fs.isdir p

/-- Create or overwrite the regular file at `p` with content `c`
(Python `open(p, "w")` followed by a write). -/
def FS.setFile (fs : FS) (p : FPath) (c : String) : FS :=
  ⟨(p, c) :: fs.files.filter (fun e => e.1 != p), fs.dirs⟩

/-- Python `os.remove`. -/
def FS.removeFile (fs : FS) (p : FPath) : FS :=
  ⟨fs.files.filter (fun e => e.1 != p), fs.dirs⟩

/-- Python `os.makedirs` (intermediate directories are irrelevant to the
modelled scripts and are not tracked individually). -/
def FS.makedirs (fs : FS) (p : FPath) : FS :=
  ⟨fs.files, p :: fs.dirs⟩

/-- Python `shutil.copy src dst`: fails on a missing or directory source;
copying onto a directory destination places the file inside it under the
source's base name. -/
def FS.shcopy (fs : FS) (src dst : FPath) : Except Err FS :=
  match fs.getFile src with
  | some c =>
    if fs.isdir dst then .ok (fs.setFile (dst ++ [src.getLastD ""]) c)
    else .ok (fs.setFile dst c)
  | none =>
    if fs.isdir src then .error .isADirectoryError else .error .fileNotFoundError

/-- Python `shutil.copytree src dst` with `dirs_exist_ok=True`: every regular
file under `src` is copied to the corresponding path under `dst` (directory
entries themselves carry no data relevant to the scripts). -/
def FS.copytree (fs : FS) (src dst : FPath) : FS :=
  (fs.files.filter (fun e => startsWithPath src e.1)).foldl
    (fun acc e => acc.setFile (dst ++ e.1.drop src.length) e.2) fs

/-- Python `zipfile.ZipFile.write p arcname`: reads the regular file at `p`
into an archive entry (a directory target produces an empty directory entry,
marked by a trailing empty component). -/
def FS.zwrite (fs : FS) (p : FPath) (arc : FPath) : Except Err ZEntry :=
  match fs.getFile p with
  | some c => .ok (arc, c)
  | none => if fs.isdir p then .ok (arc ++ [""], "") else .error .fileNotFoundError

/-! ### Relative paths and the working directory (`fetchreadme.py` only) -/

/-- A command-line path: absolute, or relative to the working directory. -/
structure RPath where
  absolute : Bool
  comps : List String
deriving DecidableEq

/-- Resolve a path against the current working directory. -/
def resolvePath (cwd : FPath) (p : RPath) : FPath :=
  if p.absolute then p.comps else cwd ++ p.comps

/-- Python `os.path.join p s` for a single relative component `s`. -/
def joinPath (p : RPath) (s : String) : RPath :=
  ⟨p.absolute, p.comps ++ [s]⟩

/-- Result of running a script step: outcome, final filesystem, fetched URLs. -/
structure DRes where
  res : Except Err Unit
  fs : FS
  calls : List String

/-- The fixed remote base URL shared by both scripts. -/
def base_url : String :=
  "https://github.com/ZaparooProject/zaparoo.org/raw/refs/heads/main/docs/platforms/"

namespace Fetchreadme

/-- `platform_docs` of `scripts/tasks/fetchreadme.py`. -/
def platform_docs : List (String × String) :=
  [("batocera", "batocera.mdx"),
   ("bazzite", "bazzite.mdx"),
   ("chimeraos", "chimeraos.mdx"),
   ("libreelec", "libreelec.mdx"),
   ("linux", "linux.mdx"),
   ("mac", "mac.mdx"),
   ("mister", "mister.md"),
   ("mistex", "mistex.md"),
   ("recalbox", "recalbox.mdx"),
   ("steamos", "steamos.md"),
   ("windows", "windows/index.md")]

/-- First index of a line equal to `"---"` (the scan `for i in range(1, len(lines))`
is applied to the tail of the line list, see `strip_frontmatter`). -/
def firstDelim : List String → Option Nat
  | [] => none
  | l :: ls => if l = "---" then some 0 else (firstDelim ls).map (· + 1)

/-- `strip_frontmatter` of `scripts/tasks/fetchreadme.py`.  `lines[0]` on an
empty document raises `IndexError`, modelled as `none`. -/
def strip_frontmatter (content : String) : Option String :=
  match pySplitlines content with
  | [] => none
  | l0 :: rest =>
    if l0 = "---" then
      match firstDelim rest with
      | some j => some (String.intercalate "\n" (rest.drop (j + 1)))
      | none => some content
    else some content

/-- Lines 39–40 of `fetchreadme.py`: strip front-matter iff the file name ends
in `.mdx` (case-insensitively). -/
def processDoc (file_name content : String) : Option String :=
  if pyEndsWith (pyLower file_name) ".mdx" then strip_frontmatter content
  else some content

/-- `download_doc` of `fetchreadme.py`.  The script writes `README.txt`
relative to the working directory (`open("README.txt", "w")`). -/
def download_doc (platform_id : String) (cwd : FPath) (net : String → String)
    (fs : FS) : DRes :=
  match List.lookup platform_id platform_docs with
  | none => ⟨.error .valueError, fs, []⟩
  | some file_name =>
    let url := base_url ++ file_name
    let content := net url
    match processDoc file_name content with
    | none => ⟨.error .indexError, fs, [url]⟩
    | some c =>
      ⟨.ok (), fs.setFile (cwd ++ ["README.txt"]) (pystrip c ++ "\n"), [url]⟩

/-- The `__main__` block of `fetchreadme.py`, after argument parsing:
check that `target_dir` is a directory, `os.chdir(target_dir)`, then test
`os.path.join(target_dir, "README.txt")` — resolved against the *new* working
directory — and download only when that test path does not exist. -/
def main (platform : String) (target_dir : RPath) (cwd0 : FPath)
    (net : String → String) (fs : FS) : DRes :=
  if fs.isdir (resolvePath cwd0 target_dir) = false then
    ⟨.error .notADirectoryError, fs, []⟩
  else
    let cwd := resolvePath cwd0 target_dir
    let readme_path := joinPath target_dir "README.txt"
    if fs.pathExists (resolvePath cwd readme_path) then ⟨.ok (), fs, []⟩
    else download_doc platform cwd net fs

end Fetchreadme

namespace Makezip

/-- `platform_docs` of `scripts/tasks/makezip.py` (note `"batocera.md"`,
where `fetchreadme.py` has `"batocera.mdx"`). -/
def platform_docs : List (String × String) :=
  [("batocera", "batocera.md"),
   ("bazzite", "bazzite.mdx"),
   ("chimeraos", "chimeraos.mdx"),
   ("libreelec", "libreelec.mdx"),
   ("linux", "linux.mdx"),
   ("mac", "mac.mdx"),
   ("mister", "mister.md"),
   ("mistex", "mistex.md"),
   ("recalbox", "recalbox.mdx"),
   ("steamos", "steamos.md"),
   ("windows", "windows/index.md")]

/-- `extra_items` of `makezip.py`; the path `"cmd/batocera/scripts"` is
relative to the repository root, from which the script must be run. -/
def extra_items : List (String × List FPath) :=
  [("batocera", [["cmd", "batocera", "scripts"]])]

/-- `strip_frontmatter` of `makezip.py` (line-for-line identical to the copy
in `fetchreadme.py`). -/
def strip_frontmatter (content : String) : Option String :=
  match pySplitlines content with
  | [] => none
  | l0 :: rest =>
    if l0 = "---" then
      match Fetchreadme.firstDelim rest with
      | some j => some (String.intercalate "\n" (rest.drop (j + 1)))
      | none => some content
    else some content

/-- Lines 49–50 of `makezip.py`. -/
def processDoc (file_name content : String) : Option String :=
  if pyEndsWith (pyLower file_name) ".mdx" then strip_frontmatter content
  else some content

/-- `download_doc` of `makezip.py`: writes `README.txt` into `to_dir`. -/
def download_doc (platform_id : String) (to_dir : FPath) (net : String → String)
    (fs : FS) : DRes :=
  match List.lookup platform_id platform_docs with
  | none => ⟨.error .valueError, fs, []⟩
  | some file_name =>
    let url := base_url ++ file_name
    let content := net url
    match processDoc file_name content with
    | none => ⟨.error .indexError, fs, [url]⟩
    | some c =>
      ⟨.ok (), fs.setFile (to_dir ++ ["README.txt"]) (pystrip c ++ "\n"), [url]⟩

/-- A stand-in byte serialisation for the archive file written into the
filesystem (the claims only inspect the produced entry list). -/
def zipEncode (entries : List ZEntry) : String :=
  entries.foldl
    (fun s e => s ++ String.intercalate "/" e.1 ++ "\x00" ++ e.2 ++ "\x01") "PK"

/-- Lines 90–104 of `makezip.py`: process one registered extra item.  A file
item is copied flat into `build_dir` and archived under its base name; a
directory item is merged into `build_dir/<basename>` via `copytree`, after
which every file under that merged directory is archived under its path
relative to `build_dir` (the walk is modelled in file-table order; the claims
only concern the entry set). -/
def extraStep (build_dir : FPath) (acc : FS × List ZEntry) (item : FPath) :
    FS × List ZEntry :=
  let fs := acc.1
  let entries := acc.2
  let fileDone : FS × List ZEntry :=
    if fs.isfile item then
      let extra_file := build_dir ++ [item.getLastD ""]
      let fs' := fs.setFile extra_file ((fs.getFile item).getD "")
      (fs', entries ++ [([item.getLastD ""], (fs.getFile item).getD "")])
    else (fs, entries)
  let fs1 := fileDone.1
  let entries1 := fileDone.2
  if fs1.isdir item then
    let extra_dir := build_dir ++ [item.getLastD ""]
    let fs2 := if fs1.pathExists extra_dir = false then fs1.makedirs extra_dir else fs1
    let fs3 := fs2.copytree item extra_dir
    let walked := (fs3.files.filter (fun e => startsWithPath extra_dir e.1)).map
      (fun e => (e.1.drop build_dir.length, e.2))
    (fs3, entries1 ++ walked)
  else (fs1, entries1)

/-- Lines 84–104 of `makezip.py`: open the archive for writing, add the
binary, the license and the readme under their base names, then the extra
items; a failed entry write leaves the partially written archive behind. -/
def assemble (platform : String) (build_dir : FPath) (app_bin zip_name : String)
    (fs : FS) : Except Err (List ZEntry) × FS :=
  let zip_path := build_dir ++ [zip_name]
  let app_path := build_dir ++ [app_bin]
  let license_path := build_dir ++ ["LICENSE.txt"]
  let readme_path := build_dir ++ ["README.txt"]
  match fs.zwrite app_path [app_bin] with
  | .error e => (.error e, fs.setFile zip_path (zipEncode []))
  | .ok e1 =>
  match fs.zwrite license_path ["LICENSE.txt"] with
  | .error e => (.error e, fs.setFile zip_path (zipEncode [e1]))
  | .ok e2 =>
  match fs.zwrite readme_path ["README.txt"] with
  | .error e => (.error e, fs.setFile zip_path (zipEncode [e1, e2]))
  | .ok e3 =>
    let done :=
      match List.lookup platform extra_items with
      | none => (fs, ([] : List ZEntry))
      | some items => items.foldl (extraStep build_dir) (fs, [])
    let entries := [e1, e2, e3] ++ done.2
    (.ok entries, done.1.setFile zip_path (zipEncode entries))

/-- Result of a `makezip.py` run: outcome (with the archive's entry list on
success), final filesystem, fetched URLs. -/
structure MZRes where
  res : Except Err (List ZEntry)
  fs : FS
  calls : List String

/-- The `__main__` block of `makezip.py`, after argument parsing.  All paths
are resolved against the repository root (the script's fixed working
directory). -/
def main (platform : String) (build_dir : FPath) (app_bin zip_name : String)
    (net : String → String) (fs0 : FS) : MZRes :=
  if fs0.isdir build_dir = false then ⟨.error .notADirectoryError, fs0, []⟩ else
  let license_path := build_dir ++ ["LICENSE.txt"]
  match (if fs0.isfile license_path then .ok fs0
         else fs0.shcopy ["LICENSE"] license_path : Except Err FS) with
  | .error e => ⟨.error e, fs0, []⟩
  | .ok fs1 =>
    let app_path := build_dir ++ [app_bin]
    if fs1.isfile app_path = false then ⟨.error .fileNotFoundError, fs1, []⟩ else
    let zip_path := build_dir ++ [zip_name]
    let fs2 := if fs1.isfile zip_path then fs1.removeFile zip_path else fs1
    let readme_path := build_dir ++ ["README.txt"]
    let d : DRes :=
      if fs2.pathExists readme_path then ⟨.ok (), fs2, []⟩
      else download_doc platform build_dir net fs2
    match d with
    | ⟨.error e, fs3, calls⟩ => ⟨.error e, fs3, calls⟩
    | ⟨.ok _, fs3, calls⟩ =>
      let r := assemble platform build_dir app_bin zip_name fs3
      ⟨r.1, r.2, calls⟩

end Makezip

/-! ### Path-prefix lemmas -/

theorem startsWithPath_iff (pre q : FPath) :
    startsWithPath pre q = true ↔ ∃ r, q = pre ++ r := by
  induction pre generalizing q with
  | nil => simp [startsWithPath]
  | cons a as ih =>
    cases q with
    | nil => simp [startsWithPath]
    | cons b bs =>
      simp only [startsWithPath, Bool.and_eq_true, beq_iff_eq, ih, List.cons_append,
        List.cons.injEq]
      constructor
      · rintro ⟨h1, r, h2⟩
        exact ⟨r, h1.symm, h2⟩
      · rintro ⟨r, h1, h2⟩
        exact ⟨h1.symm, r, h2⟩

theorem startsWithPath_append (p r : FPath) : startsWithPath p (p ++ r) = true :=
  (startsWithPath_iff p (p ++ r)).mpr ⟨r, rfl⟩

theorem startsWithPath_snoc_iff (b : FPath) (x y : String) :
    startsWithPath (b ++ [x]) (b ++ [y]) = true ↔ x = y := by
  constructor
  · intro h
    obtain ⟨r, hr⟩ := (startsWithPath_iff _ _).mp h
    rw [List.append_assoc] at hr
    have h2 : [y] = [x] ++ r := List.append_cancel_left hr
    simp only [List.singleton_append, List.cons.injEq] at h2
    exact h2.1.symm
  · rintro rfl
    simpa using startsWithPath_append (b ++ [x]) []

theorem startsWithPath_of_snoc (src b : FPath) (x : String)
    (h : startsWithPath src (b ++ [x]) = true) :
    startsWithPath src b = true ∨ src = b ++ [x] := by
  obtain ⟨r, hr⟩ := (startsWithPath_iff _ _).mp h
  rcases List.eq_nil_or_concat r with rfl | ⟨r', y, rfl⟩
  · right
    simpa using hr.symm
  · left
    rw [List.concat_eq_append, ← List.append_assoc] at hr
    have h2 := List.append_inj' hr rfl
    exact (startsWithPath_iff _ _).mpr ⟨r', h2.1⟩

/-! ### Association-list and filesystem frame lemmas -/

theorem lookup_filter_ne (l : List (FPath × String)) (q p : FPath) (h : q ≠ p) :
    List.lookup q (l.filter (fun e => e.1 != p)) = List.lookup q l := by
  induction l with
  | nil => rfl
  | cons e t ih =>
    by_cases he : e.1 = p
    · have hq : (q == p) = false := by simp [h]
      simp [List.filter_cons, he, List.lookup, hq, ih]
    · by_cases hq : q = e.1
      · simp [List.filter_cons, he, List.lookup, hq]
      · have hq' : (q == e.1) = false := by simp [hq]
        simp [List.filter_cons, he, List.lookup, hq', ih]

theorem getFile_setFile_self (fs : FS) (p : FPath) (c : String) :
    (fs.setFile p c).getFile p = some c := by
  simp [FS.getFile, FS.setFile, List.lookup]

theorem getFile_setFile_ne (fs : FS) (p q : FPath) (c : String) (h : q ≠ p) :
    (fs.setFile p c).getFile q = fs.getFile q := by
  have hq : (q == p) = false := by simp [h]
  simp [FS.getFile, FS.setFile, List.lookup, hq, lookup_filter_ne _ _ _ h]

theorem getFile_removeFile_ne (fs : FS) (p q : FPath) (h : q ≠ p) :
    (fs.removeFile p).getFile q = fs.getFile q := by
  simp [FS.getFile, FS.removeFile, lookup_filter_ne _ _ _ h]

theorem isfile_setFile_iff (fs : FS) (p q : FPath) (c : String) :
    (fs.setFile p c).isfile q = true ↔ (q = p ∨ fs.isfile q = true) := by
  by_cases h : q = p
  · subst h
    simp [FS.isfile, getFile_setFile_self]
  · simp [FS.isfile, getFile_setFile_ne fs p q c h, h]

theorem isfile_removeFile_ne (fs : FS) (p q : FPath) (h : q ≠ p) :
    (fs.removeFile p).isfile q = fs.isfile q := by
  simp [FS.isfile, getFile_removeFile_ne fs p q h]

theorem dirs_setFile (fs : FS) (p : FPath) (c : String) :
    (fs.setFile p c).dirs = fs.dirs := rfl

theorem dirs_removeFile (fs : FS) (p : FPath) :
    (fs.removeFile p).dirs = fs.dirs := rfl

theorem mem_setFile (fs : FS) (p : FPath) (c : String) (e : FPath × String)
    (h : e ∈ (fs.setFile p c).files) : e = (p, c) ∨ e ∈ fs.files := by
  simp only [FS.setFile, List.mem_cons, List.mem_filter] at h
  exact h.imp id And.left

theorem mem_removeFile (fs : FS) (p : FPath) (e : FPath × String)
    (h : e ∈ (fs.removeFile p).files) : e ∈ fs.files := by
  simp only [FS.removeFile, List.mem_filter] at h
  exact h.1

theorem filter_setFile (fs : FS) (p : FPath) (c : String)
    (P : FPath × String → Bool) (hP : ∀ c', P (p, c') = false) :
    ((fs.setFile p c).files.filter P) = fs.files.filter P := by
  have hpc : P (p, c) = false := hP c
  simp only [FS.setFile, List.filter_cons, hpc, Bool.false_eq_true, if_false,
    List.filter_filter]
  refine List.filter_congr (fun e _ => ?_)
  by_cases he : e.1 = p
  · have : P e = false := by
      have : e = (p, e.2) := by
        cases e; simp_all
      rw [this]; exact hP e.2
    simp [this]
  · simp [he]

theorem filter_removeFile (fs : FS) (p : FPath)
    (P : FPath × String → Bool) (hP : ∀ c', P (p, c') = false) :
    ((fs.removeFile p).files.filter P) = fs.files.filter P := by
  simp only [FS.removeFile, List.filter_filter]
  refine List.filter_congr (fun e _ => ?_)
  by_cases he : e.1 = p
  · have : P e = false := by
      have : e = (p, e.2) := by
        cases e; simp_all
      rw [this]; exact hP e.2
    simp [this]
  · simp [he]

theorem keysNodup_setFile (fs : FS) (p : FPath) (c : String)
    (h : (fs.files.map Prod.fst).Nodup) :
    (((fs.setFile p c).files.map Prod.fst)).Nodup := by
  simp only [FS.setFile, List.map_cons, List.nodup_cons]
  constructor
  · intro hmem
    obtain ⟨e, he, hfst⟩ := List.mem_map.mp hmem
    have := (List.mem_filter.mp he).2
    simp [hfst] at this
  · exact ((List.filter_sublist _).map Prod.fst).nodup h

theorem keysNodup_removeFile (fs : FS) (p : FPath)
    (h : (fs.files.map Prod.fst).Nodup) :
    (((fs.removeFile p).files.map Prod.fst)).Nodup :=
  ((List.filter_sublist _).map Prod.fst).nodup h

theorem filter_no_key (l : List (FPath × String)) (p : FPath)
    (h : ∀ f ∈ l, f.1 ≠ p) : l.filter (fun e => e.1 != p) = l :=
  List.filter_eq_self.mpr (fun e he => by simp [h e he])

theorem copyFold_files (k : FPath × String → FPath) (l : List (FPath × String)) :
    ∀ (acc : FS),
      (∀ e ∈ l, ∀ f ∈ acc.files, k e ≠ f.1) →
      (l.map k).Nodup →
      (l.foldl (fun a e => a.setFile (k e) e.2) acc).files
        = (l.map (fun e => (k e, e.2))).reverse ++ acc.files := by
  induction l with
  | nil => intro acc _ _; rfl
  | cons e t ih =>
    intro acc hfresh hnd
    simp only [List.foldl_cons]
    have hfiles : (acc.setFile (k e) e.2).files = (k e, e.2) :: acc.files := by
      show (k e, e.2) :: acc.files.filter (fun f => f.1 != k e) = _
      rw [filter_no_key _ _ (fun f hf hc => hfresh e (List.mem_cons_self e t) f hf hc.symm)]
    have hke : k e ∉ t.map k := (List.nodup_cons.mp (by simpa using hnd)).1
    have hfresh' : ∀ e' ∈ t, ∀ f ∈ (acc.setFile (k e) e.2).files, k e' ≠ f.1 := by
      intro e' he' f hf
      rw [hfiles] at hf
      rcases List.mem_cons.mp hf with rfl | hf'
      · intro hc
        apply hke
        have hm := List.mem_map_of_mem k he'
        rwa [hc] at hm
      · exact hfresh e' (List.mem_cons_of_mem e he') f hf'
    rw [ih _ hfresh' (List.nodup_cons.mp (by simpa using hnd)).2, hfiles]
    simp

theorem copyFold_dirs (k : FPath × String → FPath) (l : List (FPath × String)) :
    ∀ acc : FS,
      (l.foldl (fun a e => a.setFile (k e) e.2) acc).dirs = acc.dirs := by
  induction l with
  | nil => intro acc; rfl
  | cons e t ih => intro acc; simpa using ih (acc.setFile (k e) e.2)

/-! ### Lemmas on the Python string primitives -/

theorem head?_dropWhile_not (p : Char → Bool) (l : List Char) :
    ∀ a, (l.dropWhile p).head? = some a → p a = false := by
  induction l with
  | nil => intro a h; simp at h
  | cons c t ih =>
    intro a h
    by_cases hc : p c
    · exact ih a (by simpa [List.dropWhile_cons, hc] using h)
    · simp only [List.dropWhile_cons] at h
      rw [if_neg (by simp [hc])] at h
      simp only [List.head?_cons, Option.some.injEq] at h
      subst h
      exact Bool.eq_false_iff.mpr hc

theorem pystrip_no_trailing_space (s : String) (a : Char)
    (h : (pystrip s).data.getLast? = some a) : isPySpace a = false := by
  unfold pystrip at h
  rw [show ∀ l : List Char, (String.mk l).data = l from fun _ => rfl] at h
  rw [List.getLast?_reverse] at h
  exact head?_dropWhile_not isPySpace _ a h

theorem firstDelim_append_delim (body after : List String) (hb : "---" ∉ body) :
    Fetchreadme.firstDelim (body ++ "---" :: after) = some body.length := by
  induction body with
  | nil => simp [Fetchreadme.firstDelim]
  | cons b bs ih =>
    have hb1 : ¬ (b = "---") := fun h => hb (by simp [h])
    have hb2 : "---" ∉ bs := fun h => hb (List.mem_cons_of_mem _ h)
    simp [Fetchreadme.firstDelim, hb1, ih hb2]

theorem drop_append_cons (body : List String) (x : String) (after : List String) :
    (body ++ x :: after).drop (body.length + 1) = after := by
  induction body with
  | nil => simp
  | cons b bs ih => simp [ih]

/-! ### Step lemmas for `makezip.py`'s main block -/

theorem license_step (fs0 : FS) (bd : FPath)
    (h4 : fs0.isfile ["LICENSE"] = true)
    (h5 : fs0.isdir (bd ++ ["LICENSE.txt"]) = false) :
    ∃ fs1 : FS,
      (if fs0.isfile (bd ++ ["LICENSE.txt"]) then (.ok fs0 : Except Err FS)
       else fs0.shcopy ["LICENSE"] (bd ++ ["LICENSE.txt"])) = .ok fs1
      ∧ (∀ q, fs1.isfile q = true ↔ (q = bd ++ ["LICENSE.txt"] ∨ fs0.isfile q = true))
      ∧ fs1.dirs = fs0.dirs
      ∧ (∀ q, q ≠ bd ++ ["LICENSE.txt"] → fs1.getFile q = fs0.getFile q)
      ∧ ((fs0.files.map Prod.fst).Nodup → (fs1.files.map Prod.fst).Nodup)
      ∧ (∀ e ∈ fs1.files, e.1 = bd ++ ["LICENSE.txt"] ∨ e ∈ fs0.files)
      ∧ (∀ P : FPath × String → Bool, (∀ c, P (bd ++ ["LICENSE.txt"], c) = false) →
          fs1.files.filter P = fs0.files.filter P) := by
  by_cases hl : fs0.isfile (bd ++ ["LICENSE.txt"]) = true
  · refine ⟨fs0, by simp [hl], ?_, rfl, fun _ _ => rfl, id, fun e he => Or.inr he,
      fun _ _ => rfl⟩
    intro q
    constructor
    · exact Or.inr
    · rintro (rfl | h)
      · exact hl
      · exact h
  · obtain ⟨c, hc⟩ := Option.isSome_iff_exists.mp h4
    refine ⟨fs0.setFile (bd ++ ["LICENSE.txt"]) c, ?_, ?_, rfl, ?_, ?_, ?_, ?_⟩
    · simp [hl, FS.shcopy, hc, h5]
    · intro q
      exact isfile_setFile_iff fs0 _ q c
    · exact fun q hq => getFile_setFile_ne fs0 _ q c hq
    · exact keysNodup_setFile fs0 _ c
    · intro e he
      exact (mem_setFile fs0 _ c e he).imp (fun h => by rw [h]) id
    · exact fun P hP => filter_setFile fs0 _ c P hP

theorem zipremove_facts (fs1 fs2 : FS) (zp : FPath)
    (h : fs2 = if fs1.isfile zp then fs1.removeFile zp else fs1) :
    fs2.dirs = fs1.dirs
    ∧ (∀ q, q ≠ zp → fs2.getFile q = fs1.getFile q)
    ∧ ((fs1.files.map Prod.fst).Nodup → (fs2.files.map Prod.fst).Nodup)
    ∧ (∀ e ∈ fs2.files, e ∈ fs1.files)
    ∧ (∀ P : FPath × String → Bool, (∀ c, P (zp, c) = false) →
        fs2.files.filter P = fs1.files.filter P) := by
  by_cases hz : fs1.isfile zp = true
  · rw [h, if_pos hz]
    exact ⟨rfl, fun q hq => getFile_removeFile_ne fs1 zp q hq,
      keysNodup_removeFile fs1 zp, fun e he => mem_removeFile fs1 zp e he,
      fun P hP => filter_removeFile fs1 zp P hP⟩
  · rw [h, if_neg (by simpa using hz)]
    exact ⟨rfl, fun _ _ => rfl, id, fun _ he => he, fun _ _ => rfl⟩

theorem isfile_congr (fs fs' : FS) (q : FPath) (h : fs'.getFile q = fs.getFile q) :
    fs'.isfile q = fs.isfile q := by
  simp [FS.isfile, h]

theorem isdir_congr (fs fs' : FS) (q : FPath) (h : fs'.dirs = fs.dirs) :
    fs'.isdir q = fs.isdir q := by
  simp [FS.isdir, h]

theorem append_singleton_inj (bd : FPath) (x y : String) :
    bd ++ [x] = bd ++ [y] ↔ x = y := by
  constructor
  · intro h
    have := List.append_cancel_left h
    simpa using this
  · rintro rfl; rfl

theorem readme_step_batocera (fs2 : FS) (bd : FPath) (net : String → String)
    (h6 : fs2.isdir (bd ++ ["README.txt"]) = false) :
    ∃ (fs3 : FS) (calls : List String),
      (if fs2.pathExists (bd ++ ["README.txt"]) then (⟨.ok (), fs2, []⟩ : DRes)
       else Makezip.download_doc "batocera" bd net fs2) = ⟨.ok (), fs3, calls⟩
      ∧ (∀ q, fs3.isfile q = true ↔ (q = bd ++ ["README.txt"] ∨ fs2.isfile q = true))
      ∧ fs3.dirs = fs2.dirs
      ∧ ((fs2.files.map Prod.fst).Nodup → (fs3.files.map Prod.fst).Nodup)
      ∧ (∀ e ∈ fs3.files, e.1 = bd ++ ["README.txt"] ∨ e ∈ fs2.files)
      ∧ (∀ P : FPath × String → Bool, (∀ c, P (bd ++ ["README.txt"], c) = false) →
          fs3.files.filter P = fs2.files.filter P) := by
  by_cases he : fs2.pathExists (bd ++ ["README.txt"]) = true
  · have hf : fs2.isfile (bd ++ ["README.txt"]) = true := by
      simpa [FS.pathExists, h6] using he
    refine ⟨fs2, [], by simp [he], ?_, rfl, id, fun e he' => Or.inr he', fun _ _ => rfl⟩
    intro q
    exact ⟨Or.inr, fun h => h.elim (fun hq => hq ▸ hf) id⟩
  · have hmd : pyEndsWith (pyLower "batocera.md") ".mdx" = false := by decide
    refine ⟨fs2.setFile (bd ++ ["README.txt"])
        (pystrip (net (base_url ++ "batocera.md")) ++ "\n"), [base_url ++ "batocera.md"],
      ?_, ?_, rfl, ?_, ?_, ?_⟩
    · rw [if_neg (by simpa using he)]
      simp [Makezip.download_doc, Makezip.platform_docs, Makezip.processDoc, hmd,
        List.lookup]
    · exact fun q => isfile_setFile_iff fs2 _ q _
    · exact keysNodup_setFile fs2 _ _
    · intro e he'
      exact (mem_setFile fs2 _ _ e he').imp (fun h => by rw [h]) id
    · exact fun P hP => filter_setFile fs2 _ _ P hP

theorem extraStep_batocera (fs : FS) (bd : FPath)
    (hN : (fs.files.map Prod.fst).Nodup)
    (hsd : fs.isdir ["cmd", "batocera", "scripts"] = true)
    (hsf : fs.isfile ["cmd", "batocera", "scripts"] = false)
    (hnodst : ∀ e ∈ fs.files, startsWithPath (bd ++ ["scripts"]) e.1 = false) :
    (Makezip.extraStep bd (fs, []) ["cmd", "batocera", "scripts"]).2
      = ((fs.files.filter
            (fun e => startsWithPath ["cmd", "batocera", "scripts"] e.1)).map
           (fun e => ("scripts" :: e.1.drop 3, e.2))).reverse := by
  have hlast : (["cmd", "batocera", "scripts"] : FPath).getLastD "" = "scripts" := rfl
  have hlen : (["cmd", "batocera", "scripts"] : FPath).length = 3 := rfl
  have key : ∀ fs2 : FS, fs2.files = fs.files →
      ((FS.copytree fs2 ["cmd", "batocera", "scripts"] (bd ++ ["scripts"])).files.filter
          (fun e => startsWithPath (bd ++ ["scripts"]) e.1)).map
        (fun e => (e.1.drop bd.length, e.2))
      = ((fs.files.filter
            (fun e => startsWithPath ["cmd", "batocera", "scripts"] e.1)).map
           (fun e => ("scripts" :: e.1.drop 3, e.2))).reverse := by
    intro fs2 hf2
    have hSkeys :
        ((fs.files.filter
            (fun e => startsWithPath ["cmd", "batocera", "scripts"] e.1)).map
          Prod.fst).Nodup :=
      ((List.filter_sublist _).map Prod.fst).nodup hN
    have hfresh : ∀ e ∈ fs.files.filter
          (fun e => startsWithPath ["cmd", "batocera", "scripts"] e.1),
        ∀ f ∈ fs2.files,
          (bd ++ ["scripts"]) ++ e.1.drop (["cmd", "batocera", "scripts"] : FPath).length
            ≠ f.1 := by
      intro e _ f hf hc
      have hb := hnodst f (hf2 ▸ hf)
      rw [← hc, startsWithPath_append] at hb
      exact Bool.true_eq_false.mp hb
    have hnd :
        ((fs.files.filter
            (fun e => startsWithPath ["cmd", "batocera", "scripts"] e.1)).map
          (fun e => (bd ++ ["scripts"])
            ++ e.1.drop (["cmd", "batocera", "scripts"] : FPath).length)).Nodup := by
      have hmapeq :
          (fs.files.filter
              (fun e => startsWithPath ["cmd", "batocera", "scripts"] e.1)).map
            (fun e => (bd ++ ["scripts"])
              ++ e.1.drop (["cmd", "batocera", "scripts"] : FPath).length)
          = ((fs.files.filter
                (fun e => startsWithPath ["cmd", "batocera", "scripts"] e.1)).map
              Prod.fst).map
            (fun q => (bd ++ ["scripts"])
              ++ q.drop (["cmd", "batocera", "scripts"] : FPath).length) := by
        rw [List.map_map]
        rfl
      rw [hmapeq]
      refine hSkeys.map_on ?_
      intro q1 hq1 q2 hq2 heq
      obtain ⟨e1, he1, rfl⟩ := List.mem_map.mp hq1
      obtain ⟨e2, he2, rfl⟩ := List.mem_map.mp hq2
      obtain ⟨r1, hr1⟩ := (startsWithPath_iff _ _).mp (List.mem_filter.mp he1).2
      obtain ⟨r2, hr2⟩ := (startsWithPath_iff _ _).mp (List.mem_filter.mp he2).2
      rw [hr1, hr2, List.drop_left, List.drop_left] at heq
      rw [hr1, hr2, List.append_cancel_left heq]
    rw [FS.copytree, hf2]
    rw [copyFold_files _ _ fs2 hfresh hnd]
    have hfilt1 :
        (((fs.files.filter
              (fun e => startsWithPath ["cmd", "batocera", "scripts"] e.1)).map
            (fun e => ((bd ++ ["scripts"])
              ++ e.1.drop (["cmd", "batocera", "scripts"] : FPath).length, e.2))).reverse).filter
          (fun e => startsWithPath (bd ++ ["scripts"]) e.1)
        = ((fs.files.filter
              (fun e => startsWithPath ["cmd", "batocera", "scripts"] e.1)).map
            (fun e => ((bd ++ ["scripts"])
              ++ e.1.drop (["cmd", "batocera", "scripts"] : FPath).length, e.2))).reverse := by
      refine List.filter_eq_self.mpr ?_
      intro x hx
      rw [List.mem_reverse] at hx
      obtain ⟨e, _, rfl⟩ := List.mem_map.mp hx
      exact startsWithPath_append _ _
    have hfilt2 : fs2.files.filter (fun e => startsWithPath (bd ++ ["scripts"]) e.1)
        = [] := by
      rw [hf2]
      exact List.filter_eq_nil_iff.mpr (fun e he => by simp [hnodst e he])
    rw [List.filter_append, hfilt1, hfilt2, List.append_nil, List.map_reverse,
      List.map_map]
    congr 1
    refine List.map_congr_left ?_
    intro e _
    simp only [Function.comp_apply, hlen, List.append_assoc, List.singleton_append,
      List.drop_left]
  have hred : (Makezip.extraStep bd (fs, []) ["cmd", "batocera", "scripts"]).2
      = ((FS.copytree (if fs.pathExists (bd ++ ["scripts"]) = false
            then fs.makedirs (bd ++ ["scripts"]) else fs)
          ["cmd", "batocera", "scripts"] (bd ++ ["scripts"])).files.filter
            (fun e => startsWithPath (bd ++ ["scripts"]) e.1)).map
          (fun e => (e.1.drop bd.length, e.2)) := by
    simp only [Makezip.extraStep, hsf, Bool.false_eq_true, if_false, hsd, if_true, hlast,
      List.nil_append]
  rw [hred]
  cases hpe : fs.pathExists (bd ++ ["scripts"]) with
  | false =>
    rw [if_pos rfl]
    exact key (fs.makedirs (bd ++ ["scripts"])) rfl
  | true =>
    rw [if_neg (by simp)]
    exact key fs rfl

theorem assemble_batocera (fs : FS) (bd : FPath) (app_bin zip_name : String)
    (hN : (fs.files.map Prod.fst).Nodup)
    (ha : fs.isfile (bd ++ [app_bin]) = true)
    (hl : fs.isfile (bd ++ ["LICENSE.txt"]) = true)
    (hr : fs.isfile (bd ++ ["README.txt"]) = true)
    (hsd : fs.isdir ["cmd", "batocera", "scripts"] = true)
    (hsf : fs.isfile ["cmd", "batocera", "scripts"] = false)
    (hnodst : ∀ e ∈ fs.files, startsWithPath (bd ++ ["scripts"]) e.1 = false) :
    ∃ ca cl cr,
      (Makezip.assemble "batocera" bd app_bin zip_name fs).1
        = .ok ([([app_bin], ca), (["LICENSE.txt"], cl), (["README.txt"], cr)]
            ++ ((fs.files.filter
                  (fun e => startsWithPath ["cmd", "batocera", "scripts"] e.1)).map
                 (fun e => ("scripts" :: e.1.drop 3, e.2))).reverse) := by
  obtain ⟨ca, hca⟩ := Option.isSome_iff_exists.mp ha
  obtain ⟨cl, hcl⟩ := Option.isSome_iff_exists.mp hl
  obtain ⟨cr, hcr⟩ := Option.isSome_iff_exists.mp hr
  refine ⟨ca, cl, cr, ?_⟩
  have h1 : fs.zwrite (bd ++ [app_bin]) [app_bin] = .ok ([app_bin], ca) := by
    simp [FS.zwrite, hca]
  have h2 : fs.zwrite (bd ++ ["LICENSE.txt"]) ["LICENSE.txt"]
      = .ok (["LICENSE.txt"], cl) := by
    simp [FS.zwrite, hcl]
  have h3 : fs.zwrite (bd ++ ["README.txt"]) ["README.txt"]
      = .ok (["README.txt"], cr) := by
    simp [FS.zwrite, hcr]
  have hlook : List.lookup "batocera" Makezip.extra_items
      = some [["cmd", "batocera", "scripts"]] := rfl
  simp only [Makezip.assemble, h1, h2, h3, hlook, List.foldl_cons, List.foldl_nil]
  rw [extraStep_batocera fs bd hN hsd hsf hnodst]

/-- **C2** After building a package for platform `"batocera"` on a build
directory containing the binary `app_bin`, the produced archive consists of
exactly the entries `app_bin`, `LICENSE.txt`, `README.txt`, plus one entry for
every file under the registered extra directory `cmd/batocera/scripts`, the
latter under their paths relative to the build directory (`scripts/...`); this
holds for every filesystem satisfying the stated sanity conditions — in
particular a stale archive may pre-exist at the target path (it is removed
first), and the build directory may or may not already hold `LICENSE.txt` or
`README.txt`. -/
theorem batocera_archive_entry_set
    (fs : FS) (bd : FPath) (app_bin zip_name : String) (net : String → String)
    (hN : (fs.files.map Prod.fst).Nodup)
    (hbd : fs.isdir bd = true)
    (happ : fs.isfile (bd ++ [app_bin]) = true)
    (hLroot : fs.isfile ["LICENSE"] = true)
    (hLdir : fs.isdir (bd ++ ["LICENSE.txt"]) = false)
    (hRdir : fs.isdir (bd ++ ["README.txt"]) = false)
    (hsd : fs.isdir ["cmd", "batocera", "scripts"] = true)
    (hsf : fs.isfile ["cmd", "batocera", "scripts"] = false)
    (hnodst : ∀ e ∈ fs.files, startsWithPath (bd ++ ["scripts"]) e.1 = false)
    (hd1 : startsWithPath ["cmd", "batocera", "scripts"] bd = false)
    (hd2 : startsWithPath bd ["cmd", "batocera", "scripts"] = false)
    (hz1 : zip_name ≠ app_bin)
    (hz2 : zip_name ≠ "LICENSE.txt")
    (_hz3 : zip_name ≠ "scripts") :
    ∃ (entries : List ZEntry) (fs' : FS) (calls : List String),
      Makezip.main "batocera" bd app_bin zip_name net fs = ⟨.ok entries, fs', calls⟩
      ∧ List.Perm (entries.map Prod.fst)
          ([[app_bin], ["LICENSE.txt"], ["README.txt"]]
            ++ (fs.files.filter
                  (fun e => startsWithPath ["cmd", "batocera", "scripts"] e.1)).map
                 (fun e => "scripts" :: e.1.drop 3)) := by
  obtain ⟨fs1, hstep1, hiff1, hdirs1, hget1, hnd1, hmem1, hfilt1⟩ :=
    license_step fs bd hLroot hLdir
  obtain ⟨hdirs2, hget2, hnd2, hmem2, hfilt2⟩ :=
    zipremove_facts fs1
      (if fs1.isfile (bd ++ [zip_name]) then fs1.removeFile (bd ++ [zip_name]) else fs1)
      (bd ++ [zip_name]) rfl
  have hRdir2 :
      (if fs1.isfile (bd ++ [zip_name]) then fs1.removeFile (bd ++ [zip_name])
       else fs1).isdir (bd ++ ["README.txt"]) = false := by
    rw [isdir_congr fs _ _ (hdirs2.trans hdirs1)]
    exact hRdir
  obtain ⟨fs3, calls, hstep3, hiff3, hdirs3, hnd3, hmem3, hfilt3⟩ :=
    readme_step_batocera
      (if fs1.isfile (bd ++ [zip_name]) then fs1.removeFile (bd ++ [zip_name]) else fs1)
      bd net hRdir2
  -- hypotheses of the assembly lemma, transported to `fs3`
  have hNod3 : (fs3.files.map Prod.fst).Nodup := hnd3 (hnd2 (hnd1 hN))
  have hne_app_zp : bd ++ [app_bin] ≠ bd ++ [zip_name] := by
    intro h
    exact hz1 ((append_singleton_inj bd app_bin zip_name).mp h).symm
  have happ1 : fs1.isfile (bd ++ [app_bin]) = true := (hiff1 _).mpr (Or.inr happ)
  have happ2 :
      (if fs1.isfile (bd ++ [zip_name]) then fs1.removeFile (bd ++ [zip_name])
       else fs1).isfile (bd ++ [app_bin]) = true := by
    rw [isfile_congr fs1 _ _ (hget2 _ hne_app_zp)]
    exact happ1
  have happ3 : fs3.isfile (bd ++ [app_bin]) = true := (hiff3 _).mpr (Or.inr happ2)
  have hne_lic_zp : bd ++ ["LICENSE.txt"] ≠ bd ++ [zip_name] := by
    intro h
    exact hz2 ((append_singleton_inj bd _ _).mp h).symm
  have hlic1 : fs1.isfile (bd ++ ["LICENSE.txt"]) = true := (hiff1 _).mpr (Or.inl rfl)
  have hlic2 :
      (if fs1.isfile (bd ++ [zip_name]) then fs1.removeFile (bd ++ [zip_name])
       else fs1).isfile (bd ++ ["LICENSE.txt"]) = true := by
    rw [isfile_congr fs1 _ _ (hget2 _ hne_lic_zp)]
    exact hlic1
  have hlic3 : fs3.isfile (bd ++ ["LICENSE.txt"]) = true := (hiff3 _).mpr (Or.inr hlic2)
  have hread3 : fs3.isfile (bd ++ ["README.txt"]) = true := (hiff3 _).mpr (Or.inl rfl)
  have hsd3 : fs3.isdir ["cmd", "batocera", "scripts"] = true := by
    rw [isdir_congr fs _ _ ((hdirs3.trans hdirs2).trans hdirs1)]
    exact hsd
  have hsrc_ne : ∀ x : String, ["cmd", "batocera", "scripts"] ≠ bd ++ [x] := by
    intro x h
    have hp : startsWithPath bd (["cmd", "batocera", "scripts"] : FPath) = true := by
      rw [h]
      exact startsWithPath_append bd [x]
    rw [hd2] at hp
    exact Bool.false_ne_true hp
  have hsf1 : fs1.isfile ["cmd", "batocera", "scripts"] = false := by
    refine Bool.eq_false_iff.mpr (fun hval => ?_)
    rcases (hiff1 _).mp hval with h | h
    · exact hsrc_ne "LICENSE.txt" h
    · rw [hsf] at h
      exact Bool.false_ne_true h
  have hsf2 :
      (if fs1.isfile (bd ++ [zip_name]) then fs1.removeFile (bd ++ [zip_name])
       else fs1).isfile ["cmd", "batocera", "scripts"] = false := by
    rw [isfile_congr fs1 _ _ (hget2 _ (hsrc_ne zip_name))]
    exact hsf1
  have hsf3 : fs3.isfile ["cmd", "batocera", "scripts"] = false := by
    refine Bool.eq_false_iff.mpr (fun hval => ?_)
    rcases (hiff3 _).mp hval with h | h
    · exact hsrc_ne "README.txt" h
    · rw [hsf2] at h
      exact Bool.false_ne_true h
  have hswp_ne : ∀ x : String, x ≠ "scripts" →
      startsWithPath (bd ++ ["scripts"]) (bd ++ [x]) = false := by
    intro x hx
    refine Bool.eq_false_iff.mpr (fun h => hx ?_)
    exact ((startsWithPath_snoc_iff bd "scripts" x).mp h).symm
  have hnodst3 : ∀ e ∈ fs3.files, startsWithPath (bd ++ ["scripts"]) e.1 = false := by
    intro e he
    rcases hmem3 e he with h | he2
    · rw [h]
      exact hswp_ne "README.txt" (by decide)
    · rcases hmem1 e (hmem2 e he2) with h | he0
      · rw [h]
        exact hswp_ne "LICENSE.txt" (by decide)
      · exact hnodst e he0
  have hPgen : ∀ x : String,
      startsWithPath ["cmd", "batocera", "scripts"] (bd ++ [x]) = false := by
    intro x
    refine Bool.eq_false_iff.mpr (fun h => ?_)
    rcases startsWithPath_of_snoc _ bd x h with h1 | h1
    · rw [hd1] at h1
      exact Bool.false_ne_true h1
    · exact hsrc_ne x h1
  have hfiltS :
      fs3.files.filter (fun e => startsWithPath ["cmd", "batocera", "scripts"] e.1)
        = fs.files.filter (fun e => startsWithPath ["cmd", "batocera", "scripts"] e.1) := by
    rw [hfilt3 _ (fun c => hPgen "README.txt"), hfilt2 _ (fun c => hPgen zip_name),
      hfilt1 _ (fun c => hPgen "LICENSE.txt")]
  obtain ⟨ca, cl, cr, hasm⟩ :=
    assemble_batocera fs3 bd app_bin zip_name hNod3 happ3 hlic3 hread3 hsd3 hsf3 hnodst3
  rw [hfiltS] at hasm
  have hmain : Makezip.main "batocera" bd app_bin zip_name net fs
      = ⟨(Makezip.assemble "batocera" bd app_bin zip_name fs3).1,
         (Makezip.assemble "batocera" bd app_bin zip_name fs3).2, calls⟩ := by
    unfold Makezip.main
    rw [if_neg (by simp [hbd])]
    dsimp only
    split
    · next e heq =>
      rw [hstep1] at heq
      exact absurd heq (by simp)
    · next fs1' heq =>
      rw [hstep1] at heq
      injection heq with heq1
      subst heq1
      rw [if_neg (by simp [happ1])]
      split
      · next e fs3' calls' heq2 =>
        rw [hstep3] at heq2
        exact absurd heq2 (by simp)
      · next u fs3' calls' heq2 =>
        rw [hstep3] at heq2
        injection heq2 with h1 h2 h3
        subst h2
        subst h3
        rfl
  refine ⟨[([app_bin], ca), (["LICENSE.txt"], cl), (["README.txt"], cr)]
      ++ ((fs.files.filter
            (fun e => startsWithPath ["cmd", "batocera", "scripts"] e.1)).map
           (fun e => ("scripts" :: e.1.drop 3, e.2))).reverse,
    (Makezip.assemble "batocera" bd app_bin zip_name fs3).2, calls, ?_, ?_⟩
  · rw [hmain, hasm]
  · simp only [List.map_append, List.map_cons, List.map_nil, List.map_reverse,
      List.map_map]
    exact List.Perm.append_left _ (List.reverse_perm _)

theorem extraStep_absent (bd : FPath) (fs : FS) (entries : List ZEntry) (item : FPath)
    (h1 : fs.isfile item = false) (h2 : fs.isdir item = false) :
    Makezip.extraStep bd (fs, entries) item = (fs, entries) := by
  simp [Makezip.extraStep, h1, h2]

theorem foldl_extraStep_absent (bd : FPath) (items : List FPath) :
    ∀ (fs : FS) (entries : List ZEntry),
      (∀ i ∈ items, fs.isfile i = false ∧ fs.isdir i = false) →
      List.foldl (Makezip.extraStep bd) (fs, entries) items = (fs, entries) := by
  induction items with
  | nil => intro fs entries _; rfl
  | cons i t ih =>
    intro fs entries h
    rw [List.foldl_cons,
      extraStep_absent bd fs entries i (h i (List.mem_cons_self i t)).1
        (h i (List.mem_cons_self i t)).2]
    exact ih fs entries (fun j hj => h j (List.mem_cons_of_mem i hj))

theorem assemble_no_extras (pid : String) (fs : FS) (bd : FPath)
    (app_bin zip_name : String)
    (ha : fs.isfile (bd ++ [app_bin]) = true)
    (hl : fs.isfile (bd ++ ["LICENSE.txt"]) = true)
    (hr : fs.isfile (bd ++ ["README.txt"]) = true)
    (hitems : ∀ item ∈ (List.lookup pid Makezip.extra_items).getD [],
        fs.isfile item = false ∧ fs.isdir item = false) :
    ∃ ca cl cr,
      (Makezip.assemble pid bd app_bin zip_name fs).1
        = .ok [([app_bin], ca), (["LICENSE.txt"], cl), (["README.txt"], cr)] := by
  obtain ⟨ca, hca⟩ := Option.isSome_iff_exists.mp ha
  obtain ⟨cl, hcl⟩ := Option.isSome_iff_exists.mp hl
  obtain ⟨cr, hcr⟩ := Option.isSome_iff_exists.mp hr
  refine ⟨ca, cl, cr, ?_⟩
  have h1 : fs.zwrite (bd ++ [app_bin]) [app_bin] = .ok ([app_bin], ca) := by
    simp [FS.zwrite, hca]
  have h2 : fs.zwrite (bd ++ ["LICENSE.txt"]) ["LICENSE.txt"]
      = .ok (["LICENSE.txt"], cl) := by
    simp [FS.zwrite, hcl]
  have h3 : fs.zwrite (bd ++ ["README.txt"]) ["README.txt"]
      = .ok (["README.txt"], cr) := by
    simp [FS.zwrite, hcr]
  simp only [Makezip.assemble, h1, h2, h3]
  cases hlook : List.lookup pid Makezip.extra_items with
  | none => simp
  | some items =>
    rw [hlook] at hitems
    simp only [Option.getD_some] at hitems
    dsimp only
    rw [foldl_extraStep_absent bd items fs [] hitems]
    simp

/-- **C10** If every extra item registered for the invoked platform exists
neither as a file nor as a directory, the build completes successfully and the
archive consists of exactly the three standard entries — the missing items are
silently omitted, no error is raised. -/
theorem missing_extra_items_skipped
    (pid : String) (fs : FS) (bd : FPath) (app_bin zip_name : String)
    (net : String → String)
    (hbd : fs.isdir bd = true)
    (happ : fs.isfile (bd ++ [app_bin]) = true)
    (hLroot : fs.isfile ["LICENSE"] = true)
    (hLdir : fs.isdir (bd ++ ["LICENSE.txt"]) = false)
    (hread : fs.isfile (bd ++ ["README.txt"]) = true)
    (hz1 : zip_name ≠ app_bin)
    (hz2 : zip_name ≠ "LICENSE.txt")
    (hz3 : zip_name ≠ "README.txt")
    (hout : ∀ item ∈ (List.lookup pid Makezip.extra_items).getD [],
        startsWithPath bd item = false ∧ fs.isfile item = false
          ∧ fs.isdir item = false) :
    ∃ (fs' : FS) (calls : List String) (entries : List ZEntry),
      Makezip.main pid bd app_bin zip_name net fs = ⟨.ok entries, fs', calls⟩
      ∧ entries.map Prod.fst = [[app_bin], ["LICENSE.txt"], ["README.txt"]] := by
  obtain ⟨fs1, hstep1, hiff1, hdirs1, hget1, hnd1, hmem1, hfilt1⟩ :=
    license_step fs bd hLroot hLdir
  obtain ⟨hdirs2, hget2, hnd2, hmem2, hfilt2⟩ :=
    zipremove_facts fs1
      (if fs1.isfile (bd ++ [zip_name]) then fs1.removeFile (bd ++ [zip_name]) else fs1)
      (bd ++ [zip_name]) rfl
  have hne_app_zp : bd ++ [app_bin] ≠ bd ++ [zip_name] := fun h =>
    hz1 ((append_singleton_inj bd app_bin zip_name).mp h).symm
  have hne_lic_zp : bd ++ ["LICENSE.txt"] ≠ bd ++ [zip_name] := fun h =>
    hz2 ((append_singleton_inj bd _ _).mp h).symm
  have hne_read_zp : bd ++ ["README.txt"] ≠ bd ++ [zip_name] := fun h =>
    hz3 ((append_singleton_inj bd _ _).mp h).symm
  have hne_read_lic : bd ++ ["README.txt"] ≠ bd ++ ["LICENSE.txt"] := fun h => by
    have := (append_singleton_inj bd _ _).mp h
    simp at this
  have happ1 : fs1.isfile (bd ++ [app_bin]) = true := (hiff1 _).mpr (Or.inr happ)
  have happ2 :
      (if fs1.isfile (bd ++ [zip_name]) then fs1.removeFile (bd ++ [zip_name])
       else fs1).isfile (bd ++ [app_bin]) = true := by
    rw [isfile_congr fs1 _ _ (hget2 _ hne_app_zp)]
    exact happ1
  have hlic2 :
      (if fs1.isfile (bd ++ [zip_name]) then fs1.removeFile (bd ++ [zip_name])
       else fs1).isfile (bd ++ ["LICENSE.txt"]) = true := by
    rw [isfile_congr fs1 _ _ (hget2 _ hne_lic_zp)]
    exact (hiff1 _).mpr (Or.inl rfl)
  have hread1 : fs1.getFile (bd ++ ["README.txt"]) = fs.getFile (bd ++ ["README.txt"]) :=
    hget1 _ hne_read_lic
  have hread2 :
      (if fs1.isfile (bd ++ [zip_name]) then fs1.removeFile (bd ++ [zip_name])
       else fs1).isfile (bd ++ ["README.txt"]) = true := by
    rw [isfile_congr fs1 _ _ (hget2 _ hne_read_zp), isfile_congr fs fs1 _ hread1]
    exact hread
  have hpe2 :
      (if fs1.isfile (bd ++ [zip_name]) then fs1.removeFile (bd ++ [zip_name])
       else fs1).pathExists (bd ++ ["README.txt"]) = true := by
    simp [FS.pathExists, hread2]
  have hitem_ne : ∀ item ∈ (List.lookup pid Makezip.extra_items).getD [],
      ∀ x : String, item ≠ bd ++ [x] := by
    intro item hitem x h
    have hp : startsWithPath bd item = true := by
      rw [h]
      exact startsWithPath_append bd [x]
    rw [(hout item hitem).1] at hp
    exact Bool.false_ne_true hp
  have hitems2 : ∀ item ∈ (List.lookup pid Makezip.extra_items).getD [],
      (if fs1.isfile (bd ++ [zip_name]) then fs1.removeFile (bd ++ [zip_name])
       else fs1).isfile item = false
      ∧ (if fs1.isfile (bd ++ [zip_name]) then fs1.removeFile (bd ++ [zip_name])
         else fs1).isdir item = false := by
    intro item hitem
    constructor
    · rw [isfile_congr fs1 _ _ (hget2 _ (hitem_ne item hitem zip_name)),
        isfile_congr fs fs1 _ (hget1 _ (hitem_ne item hitem "LICENSE.txt"))]
      exact (hout item hitem).2.1
    · rw [isdir_congr fs _ _ (hdirs2.trans hdirs1)]
      exact (hout item hitem).2.2
  obtain ⟨ca, cl, cr, hasm⟩ :=
    assemble_no_extras pid
      (if fs1.isfile (bd ++ [zip_name]) then fs1.removeFile (bd ++ [zip_name]) else fs1)
      bd app_bin zip_name happ2 hlic2 hread2 hitems2
  have hmain : Makezip.main pid bd app_bin zip_name net fs
      = ⟨(Makezip.assemble pid bd app_bin zip_name
            (if fs1.isfile (bd ++ [zip_name]) then fs1.removeFile (bd ++ [zip_name])
             else fs1)).1,
         (Makezip.assemble pid bd app_bin zip_name
            (if fs1.isfile (bd ++ [zip_name]) then fs1.removeFile (bd ++ [zip_name])
             else fs1)).2, []⟩ := by
    unfold Makezip.main
    rw [if_neg (by simp [hbd])]
    dsimp only
    split
    · next e heq =>
      rw [hstep1] at heq
      exact absurd heq (by simp)
    · next fs1' heq =>
      rw [hstep1] at heq
      injection heq with heq1
      subst heq1
      rw [if_neg (by simp [happ1])]
      split
      · next e fs3' calls' heq2 =>
        rw [if_pos hpe2] at heq2
        exact absurd heq2 (by simp)
      · next u fs3' calls' heq2 =>
        rw [if_pos hpe2] at heq2
        injection heq2 with h1 h2 h3
        subst h2
        subst h3
        rfl
  refine ⟨(Makezip.assemble pid bd app_bin zip_name
      (if fs1.isfile (bd ++ [zip_name]) then fs1.removeFile (bd ++ [zip_name])
       else fs1)).2,
    [], [([app_bin], ca), (["LICENSE.txt"], cl), (["README.txt"], cr)], ?_, rfl⟩
  rw [hmain, hasm]

/-- **C5** For every invocation — any platform identifier included, since the
binary check precedes any use of the platform — when the named binary is
absent from the build directory, the build fails with a `FileNotFoundError`
before the archive step: the file at the archive's target path — stale
archive or not — is left exactly as it was, and no network request is made. -/
theorem missing_binary_aborts
    (pid : String) (fs : FS) (bd : FPath) (app_bin zip_name : String)
    (net : String → String)
    (hbd : fs.isdir bd = true)
    (hnb : fs.isfile (bd ++ [app_bin]) = false)
    (hna : app_bin ≠ "LICENSE.txt")
    (hz2 : zip_name ≠ "LICENSE.txt")
    (hLd : fs.isdir ["LICENSE"] = false)
    (hLdir : fs.isdir (bd ++ ["LICENSE.txt"]) = false) :
    ∃ fs' : FS,
      Makezip.main pid bd app_bin zip_name net fs
        = ⟨.error .fileNotFoundError, fs', []⟩
      ∧ fs'.getFile (bd ++ [zip_name]) = fs.getFile (bd ++ [zip_name]) := by
  have hne_app_lic : bd ++ [app_bin] ≠ bd ++ ["LICENSE.txt"] := fun h =>
    hna ((append_singleton_inj bd _ _).mp h)
  have hne_zp_lic : bd ++ [zip_name] ≠ bd ++ ["LICENSE.txt"] := fun h =>
    hz2 ((append_singleton_inj bd _ _).mp h)
  unfold Makezip.main
  rw [if_neg (by simp [hbd])]
  dsimp only
  split
  · next e heq =>
    by_cases hl : fs.isfile (bd ++ ["LICENSE.txt"]) = true
    · rw [if_pos hl] at heq
      exact absurd heq (by simp)
    · rw [if_neg hl] at heq
      cases hsrc : fs.getFile ["LICENSE"] with
      | some c => simp [FS.shcopy, hsrc, hLdir] at heq
      | none =>
        simp only [FS.shcopy, hsrc, hLd, Bool.false_eq_true, if_false,
          Except.error.injEq] at heq
        subst heq
        exact ⟨fs, rfl, rfl⟩
  · next fs1 heq =>
    by_cases hl : fs.isfile (bd ++ ["LICENSE.txt"]) = true
    · rw [if_pos hl] at heq
      injection heq with h
      subst h
      rw [if_pos hnb]
      exact ⟨fs, rfl, rfl⟩
    · rw [if_neg hl] at heq
      cases hsrc : fs.getFile ["LICENSE"] with
      | none => simp [FS.shcopy, hsrc, hLd] at heq
      | some c =>
        simp only [FS.shcopy, hsrc, hLdir, Bool.false_eq_true, if_false,
          Except.ok.injEq] at heq
        subst heq
        have hnb1 : (fs.setFile (bd ++ ["LICENSE.txt"]) c).isfile (bd ++ [app_bin])
            = false := by
          rw [isfile_congr fs _ _ (getFile_setFile_ne fs _ _ c hne_app_lic)]
          exact hnb
        rw [if_pos hnb1]
        exact ⟨fs.setFile (bd ++ ["LICENSE.txt"]) c, rfl,
          getFile_setFile_ne fs _ _ c hne_zp_lic⟩

/-- **C9** A failed build is not atomic on the build directory: with the binary
missing but `LICENSE.txt` absent from the build directory, the invocation
fails with `FileNotFoundError` and nevertheless leaves a freshly copied
`LICENSE.txt` (with the root `LICENSE`'s content) in the build directory. -/
theorem failed_build_leaves_license
    (pid : String) (fs : FS) (bd : FPath) (app_bin zip_name : String)
    (net : String → String)
    (hbd : fs.isdir bd = true)
    (hlicp : fs.isfile (bd ++ ["LICENSE.txt"]) = false)
    (hLdir : fs.isdir (bd ++ ["LICENSE.txt"]) = false)
    (hLroot : fs.isfile ["LICENSE"] = true)
    (hnb : fs.isfile (bd ++ [app_bin]) = false)
    (hna : app_bin ≠ "LICENSE.txt") :
    ∃ fs' : FS,
      Makezip.main pid bd app_bin zip_name net fs = ⟨.error .fileNotFoundError, fs', []⟩
      ∧ fs'.isfile (bd ++ ["LICENSE.txt"]) = true
      ∧ fs'.getFile (bd ++ ["LICENSE.txt"]) = fs.getFile ["LICENSE"] := by
  obtain ⟨c, hc⟩ := Option.isSome_iff_exists.mp hLroot
  have hne_app_lic : bd ++ [app_bin] ≠ bd ++ ["LICENSE.txt"] := fun h =>
    hna ((append_singleton_inj bd _ _).mp h)
  unfold Makezip.main
  rw [if_neg (by simp [hbd])]
  dsimp only
  split
  · next e heq =>
    rw [if_neg (by simp [hlicp])] at heq
    simp [FS.shcopy, hc, hLdir] at heq
  · next fs1 heq =>
    rw [if_neg (by simp [hlicp])] at heq
    simp only [FS.shcopy, hc, hLdir, Bool.false_eq_true, if_false,
      Except.ok.injEq] at heq
    subst heq
    have hnb1 : (fs.setFile (bd ++ ["LICENSE.txt"]) c).isfile (bd ++ [app_bin])
        = false := by
      rw [isfile_congr fs _ _ (getFile_setFile_ne fs _ _ c hne_app_lic)]
      exact hnb
    rw [if_pos hnb1]
    refine ⟨fs.setFile (bd ++ ["LICENSE.txt"]) c, rfl, ?_, ?_⟩
    · simp [FS.isfile, getFile_setFile_self]
    · rw [getFile_setFile_self, hc]

/-- **C1** (code bug in `fetchreadme.py`) The idempotence check is performed
*after* `os.chdir(target_dir)` on the path `os.path.join(target_dir,
"README.txt")`, which for a relative `target_dir` resolves to
`target_dir/target_dir/README.txt`.  Concretely: invoked with platform
`"mister"` and relative destination `build` from a working directory where
`build/README.txt` already exists (content `"old"`) and `build/build` does
not, the script performs the network request and overwrites the existing
`README.txt` — the spec requires the fetch to be skipped with no network
call and the content left unchanged. -/
theorem fetch_skip_check_bug :
    (FS.mk [(["build", "README.txt"], "old")] [["build"]]).isfile
        ["build", "README.txt"] = true
    ∧ (Fetchreadme.main "mister" ⟨false, ["build"]⟩ [] (fun _ => "remote")
        (FS.mk [(["build", "README.txt"], "old")] [["build"]])).calls
      = [base_url ++ "mister.md"]
    ∧ (Fetchreadme.main "mister" ⟨false, ["build"]⟩ [] (fun _ => "remote")
        (FS.mk [(["build", "README.txt"], "old")] [["build"]])).fs.getFile
        ["build", "README.txt"] = some "remote\n"
    ∧ ("remote\n" : String) ≠ "old"
    ∧ (Fetchreadme.main "mister" ⟨false, ["build"]⟩ [] (fun _ => "remote")
        (FS.mk [(["build", "README.txt"], "old")] [["build"]])).res = .ok () :=
  ⟨rfl, rfl, rfl, by decide, rfl⟩

/-- **C6** (counterexample) An unknown platform identifier does not by itself
produce a lookup error: when the README existence check succeeds (here: an
absolute destination `/work` that already holds `README.txt`), the script
skips the download and terminates without error, never validating the
platform id. -/
theorem unknown_platform_skip_counterexample :
    List.lookup "bogus" Fetchreadme.platform_docs = none
    ∧ (Fetchreadme.main "bogus" ⟨true, ["work"]⟩ [] (fun _ => "remote")
        (FS.mk [(["work", "README.txt"], "x")] [["work"]])).res = .ok ()
    ∧ (Fetchreadme.main "bogus" ⟨true, ["work"]⟩ [] (fun _ => "remote")
        (FS.mk [(["work", "README.txt"], "x")] [["work"]])).calls = [] :=
  ⟨rfl, rfl, rfl⟩

/-- **C6** (amended) The destination-directory check runs first: a missing
destination directory always fails with `NotADirectoryError` (no filesystem
change, no network call).  An unknown platform identifier fails with a
`ValueError` provided the destination directory exists and the README
existence check — evaluated after `chdir`, against
`target_dir/README.txt` resolved in the *new* working directory — finds
nothing; if that check finds an existing path, the invocation succeeds
without validating the platform. -/
theorem fetch_error_conditions_amended :
    (∀ (platform : String) (target : RPath) (cwd0 : FPath) (net : String → String)
        (fs : FS),
        fs.isdir (resolvePath cwd0 target) = false →
        Fetchreadme.main platform target cwd0 net fs
          = ⟨.error .notADirectoryError, fs, []⟩)
    ∧ (∀ (platform : String) (target : RPath) (cwd0 : FPath) (net : String → String)
        (fs : FS),
        fs.isdir (resolvePath cwd0 target) = true →
        fs.pathExists
          (resolvePath (resolvePath cwd0 target) (joinPath target "README.txt"))
            = false →
        List.lookup platform Fetchreadme.platform_docs = none →
        (Fetchreadme.main platform target cwd0 net fs).res = .error .valueError) := by
  constructor
  · intro platform target cwd0 net fs h
    simp [Fetchreadme.main, h]
  · intro platform target cwd0 net fs h1 h2 h3
    simp [Fetchreadme.main, h1, h2, Fetchreadme.download_doc, h3]

/-- Witness for the amended C6 theorem at concrete inputs. -/
theorem fetch_error_conditions_amended_witness :
    Fetchreadme.main "linux" ⟨true, ["nodir"]⟩ [] (fun _ => "x") (FS.mk [] [])
      = ⟨.error .notADirectoryError, FS.mk [] [], []⟩
    ∧ (Fetchreadme.main "bogus" ⟨true, ["work"]⟩ [] (fun _ => "x")
        (FS.mk [] [["work"]])).res = .error .valueError :=
  ⟨fetch_error_conditions_amended.1 "linux" ⟨true, ["nodir"]⟩ [] _ _ (by decide),
   fetch_error_conditions_amended.2 "bogus" ⟨true, ["work"]⟩ [] _ _ (by decide)
     (by decide) (by decide)⟩

/-- **C3** Front-matter stripping: for a document whose line list is an
opening `"---"` line, a body free of `"---"` lines, a closing `"---"` line
and a remainder, the result is exactly the remainder (joined with `"\n"`);
a document whose first line is not `"---"` is returned unchanged.  The copy
in `makezip.py` is the same function. -/
theorem strip_frontmatter_spec :
    (∀ (content : String) (body after : List String),
        pySplitlines content = "---" :: (body ++ "---" :: after) →
        "---" ∉ body →
        Fetchreadme.strip_frontmatter content
          = some (String.intercalate "\n" after))
    ∧ (∀ (content l0 : String) (ls : List String),
        pySplitlines content = l0 :: ls → l0 ≠ "---" →
        Fetchreadme.strip_frontmatter content = some content)
    ∧ (∀ content : String,
        Makezip.strip_frontmatter content = Fetchreadme.strip_frontmatter content) := by
  refine ⟨?_, ?_, fun _ => rfl⟩
  · intro content body after h1 h2
    unfold Fetchreadme.strip_frontmatter
    rw [h1]
    dsimp only
    rw [if_pos rfl, firstDelim_append_delim body after h2]
    dsimp only
    rw [drop_append_cons]
  · intro content l0 ls h1 h2
    unfold Fetchreadme.strip_frontmatter
    rw [h1]
    dsimp only
    rw [if_neg h2]

/-- Witness for C3 at a concrete front-matter document and a concrete plain
document. -/
theorem strip_frontmatter_spec_witness :
    Fetchreadme.strip_frontmatter "---\ntitle: x\n---\nbody\nrest" = some "body\nrest"
    ∧ Fetchreadme.strip_frontmatter "hello\nworld" = some "hello\nworld" :=
  ⟨strip_frontmatter_spec.1 "---\ntitle: x\n---\nbody\nrest" ["title: x"]
      ["body", "rest"] (by decide) (by decide),
   strip_frontmatter_spec.2.1 "hello\nworld" "hello" ["world"] (by decide) (by decide)⟩

/-- **C8** `strip_frontmatter` is total only on non-empty documents: on the
empty document the unconditional `lines[0]` access is out of bounds (modelled
as `none`, an `IndexError`); on any document with at least one line the
function returns a value. -/
theorem strip_frontmatter_totality :
    Fetchreadme.strip_frontmatter "" = none
    ∧ Makezip.strip_frontmatter "" = none
    ∧ (∀ content : String, pySplitlines content ≠ [] →
        (Fetchreadme.strip_frontmatter content).isSome = true) := by
  refine ⟨rfl, rfl, ?_⟩
  intro content h
  cases hsp : pySplitlines content with
  | nil => exact absurd hsp h
  | cons l0 ls =>
    unfold Fetchreadme.strip_frontmatter
    rw [hsp]
    dsimp only
    by_cases hd : l0 = "---"
    · rw [if_pos hd]
      cases Fetchreadme.firstDelim ls <;> simp
    · rw [if_neg hd]
      simp

/-- Witness for C8's universally quantified part at a one-line document. -/
theorem strip_frontmatter_totality_witness :
    (pySplitlines "x" ≠ []) ∧ (Fetchreadme.strip_frontmatter "x").isSome = true :=
  ⟨by decide, strip_frontmatter_totality.2.2 "x" (by decide)⟩

/-- **C4** (counterexample) The scripts write `content.strip() + "\n"`:
Python's `strip()` removes *leading* whitespace as well.  Fetching platform
`"mister"` with remote body `" x"` (no trailing whitespace) writes `"x\n"`,
not the `" x\n"` the claim predicts ("the fetched content with trailing
whitespace trimmed plus a single trailing newline"). -/
theorem fetch_write_trim_counterexample :
    (Makezip.download_doc "mister" ["d"] (fun _ => " x") (FS.mk [] [])).fs.getFile
        ["d", "README.txt"] = some "x\n"
    ∧ (Makezip.download_doc "mister" ["d"] (fun _ => " x") (FS.mk [] [])).calls
        = [base_url ++ "mister.md"]
    ∧ ("x\n" : String) ≠ " x" ++ "\n" :=
  ⟨rfl, rfl, by decide⟩

/-- **C4** (amended) For every platform id in either script's map, the fetch
performs exactly one request, to the base URL joined with the mapped
filename, and — whenever the front-matter processing step succeeds, which for
non-`.mdx` names is always — writes to `README.txt` the processed body with
leading and trailing whitespace trimmed plus a single trailing newline (the
character before that newline is never itself a newline, so the file ends in
exactly one). -/
theorem fetch_url_and_write_amended :
    (∀ (pid fname : String) (to_dir : FPath) (net : String → String) (fs : FS)
        (body : String),
        List.lookup pid Makezip.platform_docs = some fname →
        Makezip.processDoc fname (net (base_url ++ fname)) = some body →
        Makezip.download_doc pid to_dir net fs
          = ⟨.ok (), fs.setFile (to_dir ++ ["README.txt"]) (pystrip body ++ "\n"),
             [base_url ++ fname]⟩
        ∧ ∀ ch : Char, (pystrip body).data.getLast? = some ch → ch ≠ '\n')
    ∧ (∀ (pid fname : String) (cwd : FPath) (net : String → String) (fs : FS)
        (body : String),
        List.lookup pid Fetchreadme.platform_docs = some fname →
        Fetchreadme.processDoc fname (net (base_url ++ fname)) = some body →
        Fetchreadme.download_doc pid cwd net fs
          = ⟨.ok (), fs.setFile (cwd ++ ["README.txt"]) (pystrip body ++ "\n"),
             [base_url ++ fname]⟩
        ∧ ∀ ch : Char, (pystrip body).data.getLast? = some ch → ch ≠ '\n') := by
  constructor
  · intro pid fname to_dir net fs body hlook hproc
    constructor
    · unfold Makezip.download_doc
      rw [hlook]
      dsimp only
      rw [hproc]
    · intro ch hch hcl
      have hs := pystrip_no_trailing_space body ch hch
      rw [hcl] at hs
      simp [isPySpace] at hs
  · intro pid fname cwd net fs body hlook hproc
    constructor
    · unfold Fetchreadme.download_doc
      rw [hlook]
      dsimp only
      rw [hproc]
    · intro ch hch hcl
      have hs := pystrip_no_trailing_space body ch hch
      rw [hcl] at hs
      simp [isPySpace] at hs

/-- Witness for the amended C4 theorem: platform `"mister"`, remote body
`" hi "`. -/
theorem fetch_url_and_write_amended_witness :
    Makezip.download_doc "mister" ["d"] (fun _ => " hi ") (FS.mk [] [])
      = ⟨.ok (), (FS.mk [] []).setFile (["d"] ++ ["README.txt"])
          (pystrip " hi " ++ "\n"), [base_url ++ "mister.md"]⟩
    ∧ ∀ ch : Char, (pystrip " hi ").data.getLast? = some ch → ch ≠ '\n' :=
  fetch_url_and_write_amended.1 "mister" "mister.md" ["d"] (fun _ => " hi ")
    (FS.mk [] []) " hi " (by decide) (by decide)

/-- **C7** The two scripts' platform maps agree on every key except
`"batocera"`: `fetchreadme.py` maps it to `"batocera.mdx"`, `makezip.py` to
`"batocera.md"` — different remote filenames, and only the former triggers
front-matter stripping. -/
theorem platform_maps_agreement :
    (∀ k : String, k ≠ "batocera" →
        List.lookup k Fetchreadme.platform_docs = List.lookup k Makezip.platform_docs)
    ∧ List.lookup "batocera" Fetchreadme.platform_docs = some "batocera.mdx"
    ∧ List.lookup "batocera" Makezip.platform_docs = some "batocera.md"
    ∧ ("batocera.mdx" : String) ≠ "batocera.md"
    ∧ pyEndsWith (pyLower "batocera.mdx") ".mdx" = true
    ∧ pyEndsWith (pyLower "batocera.md") ".mdx" = false := by
  refine ⟨?_, rfl, rfl, by decide, by decide, by decide⟩
  intro k hk
  have hb : (k == "batocera") = false := beq_eq_false_iff_ne.mpr hk
  simp [Fetchreadme.platform_docs, Makezip.platform_docs, List.lookup, hb]

/-- Witness for C7's universally quantified part at the key `"linux"`. -/
theorem platform_maps_agreement_witness :
    List.lookup "linux" Fetchreadme.platform_docs
      = List.lookup "linux" Makezip.platform_docs :=
  platform_maps_agreement.1 "linux" (by decide)

/-- Witness for the C2 theorem: concrete build tree with a stale archive and
two files (one nested) under `cmd/batocera/scripts`. -/
theorem batocera_archive_entry_set_witness :
    ∃ (entries : List ZEntry) (fs' : FS) (calls : List String),
      Makezip.main "batocera" ["build"] "app.bin" "z.zip" (fun _ => "net")
          (FS.mk
            [(["build", "app.bin"], "BIN"), (["build", "README.txt"], "R"),
             (["LICENSE"], "L"), (["cmd", "batocera", "scripts", "run.sh"], "S"),
             (["cmd", "batocera", "scripts", "sub", "t.sh"], "T"),
             (["build", "z.zip"], "OLDZIP")]
            [["build"], ["cmd", "batocera", "scripts"],
             ["cmd", "batocera", "scripts", "sub"]])
        = ⟨.ok entries, fs', calls⟩
      ∧ List.Perm (entries.map Prod.fst)
          ([["app.bin"], ["LICENSE.txt"], ["README.txt"]]
            ++ ((FS.mk
                  [(["build", "app.bin"], "BIN"), (["build", "README.txt"], "R"),
                   (["LICENSE"], "L"), (["cmd", "batocera", "scripts", "run.sh"], "S"),
                   (["cmd", "batocera", "scripts", "sub", "t.sh"], "T"),
                   (["build", "z.zip"], "OLDZIP")]
                  [["build"], ["cmd", "batocera", "scripts"],
                   ["cmd", "batocera", "scripts", "sub"]]).files.filter
                  (fun e => startsWithPath ["cmd", "batocera", "scripts"] e.1)).map
                 (fun e => "scripts" :: e.1.drop 3)) :=
  batocera_archive_entry_set _ ["build"] "app.bin" "z.zip" (fun _ => "net")
    (by decide) (by decide) (by decide) (by decide) (by decide) (by decide)
    (by decide) (by decide) (by decide) (by decide) (by decide) (by decide)
    (by decide) (by decide)

/-- Witness for the C5 theorem: missing binary with a stale archive present. -/
theorem missing_binary_aborts_witness :
    ∃ fs' : FS,
      Makezip.main "batocera" ["build"] "app.bin" "z.zip" (fun _ => "net")
          (FS.mk [(["LICENSE"], "L"), (["build", "z.zip"], "OLDZIP")] [["build"]])
        = ⟨.error .fileNotFoundError, fs', []⟩
      ∧ fs'.getFile (["build"] ++ ["z.zip"])
          = (FS.mk [(["LICENSE"], "L"), (["build", "z.zip"], "OLDZIP")]
              [["build"]]).getFile (["build"] ++ ["z.zip"]) :=
  missing_binary_aborts "batocera" _ ["build"] "app.bin" "z.zip" (fun _ => "net")
    (by decide) (by decide) (by decide) (by decide) (by decide) (by decide)

/-- Witness for the C9 theorem: the failed build deposits `LICENSE.txt`. -/
theorem failed_build_leaves_license_witness :
    ∃ fs' : FS,
      Makezip.main "linux" ["build"] "app.bin" "z.zip" (fun _ => "net")
          (FS.mk [(["LICENSE"], "L")] [["build"]])
        = ⟨.error .fileNotFoundError, fs', []⟩
      ∧ fs'.isfile (["build"] ++ ["LICENSE.txt"]) = true
      ∧ fs'.getFile (["build"] ++ ["LICENSE.txt"])
          = (FS.mk [(["LICENSE"], "L")] [["build"]]).getFile ["LICENSE"] :=
  failed_build_leaves_license "linux" _ ["build"] "app.bin" "z.zip" (fun _ => "net")
    (by decide) (by decide) (by decide) (by decide) (by decide) (by decide)

/-- Witness for the C10 theorem: batocera build with `cmd/batocera/scripts`
absent from the filesystem. -/
theorem missing_extra_items_skipped_witness :
    ∃ (fs' : FS) (calls : List String) (entries : List ZEntry),
      Makezip.main "batocera" ["build"] "app.bin" "z.zip" (fun _ => "net")
          (FS.mk
            [(["build", "app.bin"], "BIN"), (["build", "README.txt"], "R"),
             (["LICENSE"], "L")]
            [["build"]])
        = ⟨.ok entries, fs', calls⟩
      ∧ entries.map Prod.fst = [["app.bin"], ["LICENSE.txt"], ["README.txt"]] :=
  missing_extra_items_skipped "batocera" _ ["build"] "app.bin" "z.zip"
    (fun _ => "net") (by decide) (by decide) (by decide) (by decide) (by decide)
    (by decide) (by decide) (by decide) (by decide)
